import Mathlib

/-!
Verification of the market classification and ranking engine of
`scancrypto1` against its natural-language specification.

The source of truth is `src/analyzer.py` (class `MarketAnalyzer`, revision
v2.0) together with `src/config.py`.  Pure numeric code is embedded over `ℚ`
(prices, percentages); pandas `Series.ewm(span, adjust=False).mean()` is
embedded as an explicit left-to-right recurrence over the list of rows in
DataFrame order.  The kline DataFrame returned by `_get_kline_as_df` is
sorted descending by timestamp, so lists of candles and of closes are
NEWEST-FIRST throughout, and `df.iloc[0]` is the head of the list.

The repository has several analyzer revisions (the spec is written against
the "final/most complete" one); the health-score / separation-percentage
scorer and the health-score ranking of that final revision are not present
under `src/`, and are modelled from the spec where needed.  Each such
definition carries a doc comment starting `Modelled from the spec:`.
-/

set_option maxRecDepth 4000

/-! ## Configuration constants (src/config.py) -/

def STRICT_MIN_VOLUME_24H : ℚ := 50000000

def STRICT_MIN_OPEN_INTEREST : ℚ := 50000000

def RELAXED_MIN_VOLUME_24H : ℚ := 25000000

def RELAXED_MIN_OPEN_INTEREST : ℚ := 25000000

def TOP_BULLISH_COUNT : ℕ := 10

def TOP_BEARISH_COUNT : ℕ := 10

def EMA_SHORT_PERIOD : ℕ := 50

def EMA_LONG_PERIOD : ℕ := 200

def ATR_PERIOD : ℕ := 14

def ATR_TRENDING_THRESHOLD : ℚ := 5/2

def ATR_QUIET_THRESHOLD : ℚ := 1

def MAX_DISTANCE_FROM_EMA_PERCENT : ℚ := 15

def EARLY_STAGE_MAX_PERCENT : ℚ := 5

def MID_STAGE_MAX_PERCENT : ℚ := 15

/-! ## Data model -/

/-- One row of the kline DataFrame (`_get_kline_as_df`).  The `timestamp`,
`open`, `volume` and `turnover` columns are never read by the analysis code
and are omitted.  Candle lists are newest-first (descending timestamp). -/
structure Candle where
  high : ℚ
  low : ℚ
  close : ℚ
deriving DecidableEq

/-- One entry of the Bybit ticker list, restricted to the fields the
analyzer reads (`symbol`, `turnover24h`, `openInterestValue`,
`price24hPcnt`). -/
structure Ticker where
  symbol : String
  turnover24h : ℚ
  openInterestValue : ℚ
  price24hPcnt : ℚ
deriving DecidableEq

/-- The dictionary returned by `_analyze_single_symbol`: the input ticker
enriched with `trend_type` and `stage` (both strings in the source). -/
structure ScoredTicker where
  ticker : Ticker
  trend_type : String
  stage : String
deriving DecidableEq

/-- BTC trend label of `_analyze_macro_conditions` (the source uses the
strings NEUTRAL, BULLISH, BEARISH, Unknown, each with an emoji). -/
inductive Trend where
  | bullish
  | bearish
  | neutral
  | unknown
deriving DecidableEq

/-- Market regime label of `_analyze_macro_conditions` (source strings
"Trending", "Quiet / Ranging", "Choppy", "Unknown", each with an emoji). -/
inductive Regime where
  | trending
  | quiet
  | choppy
  | unknown
deriving DecidableEq

/-- The dictionary returned by `_analyze_macro_conditions`. -/
structure MacroReport where
  btc_trend : Trend
  market_regime : Regime
  atr_percent : ℚ
deriving DecidableEq

/-! ## Indicator computations (pandas embedding) -/

/-- Smoothing factor of `ewm(span=s)`: `alpha = 2 / (s + 1)`. -/
def alphaOfSpan (s : ℕ) : ℚ := 2 / ((s : ℚ) + 1)

/-- Tail of the `adjust=False` exponentially weighted mean: `prev` is the
value at the current row, and each next row `x` contributes
`a * x + (1 - a) * prev`. -/
def ewmRun (a : ℚ) (prev : ℚ) : List ℚ → List ℚ
  | [] => [prev]
  | x :: xs => prev :: ewmRun a (a * x + (1 - a) * prev) xs

/-- `Series.ewm(span, adjust=False).mean()` over the rows in DataFrame
order: the first row is the seed (`y[0] = x[0]`), then
`y[t] = a * x[t] + (1 - a) * y[t-1]` row by row.  Note the rows of the
analyzer's DataFrames are newest-first. -/
def ewmAdjFalse (a : ℚ) : List ℚ → List ℚ
  | [] => []
  | x :: xs => ewmRun a x xs

/-- The `close` column of a candle DataFrame (newest-first). -/
def closesOf (df : List Candle) : List ℚ := df.map (fun c => c.close)

/-- `df['close'].iloc[0]`: the newest close. -/
def latestClose (df : List Candle) : ℚ := (closesOf df).headD 0

/-- `df['close'].ewm(span=s, adjust=False).mean().iloc[0]`: the EMA column
value at row 0 (the newest row), which is where `latest = df.iloc[0]` reads
it in `_analyze_macro_conditions` and `_analyze_single_symbol`. -/
def emaLatest (s : ℕ) (df : List Candle) : ℚ :=
  ((ewmAdjFalse (alphaOfSpan s) (closesOf df)).headD 0)

/-- Per-row true range of `_analyze_macro_conditions`:
`max(high - low, |high - close.shift(-1)|, |low - close.shift(-1)|)` where
`shift(-1)` is the NEXT row (the chronologically previous bar, the rows
being newest-first).  On the last row `shift(-1)` is NaN and the pandas
row-wise `max` skips it, leaving `high - low`. -/
def trueRanges : List Candle → List ℚ
  | [] => []
  | [c] => [c.high - c.low]
  | c :: c2 :: rest =>
      max (c.high - c.low) (max |c.high - c2.close| |c.low - c2.close|) ::
        trueRanges (c2 :: rest)

/-- The raw EMA column applied to the close list, read at row 0.  Same
computation as `emaLatest` but taking the closes directly. -/
def emaLatestCloses (s : ℕ) (closes : List ℚ) : ℚ :=
  ((ewmAdjFalse (alphaOfSpan s) closes).headD 0)

/-- Modelled from the spec: the Indicator Engine contract of spec section
4.1 — an EMA "seeded by the earliest available value and recursively
applied forward in time", read at the most recent element.  The input list
is newest-first (as stored by `_get_kline_as_df`), so the chronological
recurrence runs over its reverse and the most recent value is the last one.
This definition exists to be compared with `emaLatestCloses`, the value the
source actually uses; the forward-seeded EMA itself appears in no source
file under `src/`. -/
def forwardEmaLatest (s : ℕ) (xs : List ℚ) : ℚ :=
  ((ewmAdjFalse (alphaOfSpan s) xs.reverse).getLastD 0)

/-! ## Regime classifier (lines 65-69 and 81-83 of analyzer.py) -/

/-- BTC trend classification from the reference-row values:
`BULLISH if close > ema_short > ema_long`, `BEARISH if
close < ema_short < ema_long`, else the initial `NEUTRAL`. -/
def btcTrendOf (close es el : ℚ) : Trend :=
  if close > es ∧ es > el then Trend.bullish
  else if close < es ∧ es < el then Trend.bearish
  else Trend.neutral

/-- Market regime from `atr_percent`: `Trending` if above
`ATR_TRENDING_THRESHOLD`, else `Quiet / Ranging` if below
`ATR_QUIET_THRESHOLD`, else the initial `Choppy`. -/
def marketRegimeOf (atrPercent : ℚ) : Regime :=
  if atrPercent > ATR_TRENDING_THRESHOLD then Regime.trending
  else if atrPercent < ATR_QUIET_THRESHOLD then Regime.quiet
  else Regime.choppy

/-- `_analyze_macro_conditions`, as a function of the fetched BTC kline
(`none` models a failed fetch, where `_get_kline_as_df` returns `None`).
Short or missing data yields the Unknown/Unknown report with
`atr_percent = 0` (line 58).  Otherwise the EMA columns are computed over
the newest-first rows and read at row 0, the true-range column is smoothed
by `ewm(span=ATR_PERIOD, adjust=False).mean()` and also read at row 0, and
`atr_percent` is `atr / close * 100` guarded by `close > 0`. -/
def analyzeMacroConditions (kline : Option (List Candle)) : MacroReport :=
  match kline with
  | none => ⟨Trend.unknown, Regime.unknown, 0⟩
  | some df =>
    if df.length < EMA_LONG_PERIOD then ⟨Trend.unknown, Regime.unknown, 0⟩
    else
      let close := latestClose df
      let es := emaLatest EMA_SHORT_PERIOD df
      let el := emaLatest EMA_LONG_PERIOD df
      let atr := ((ewmAdjFalse (alphaOfSpan ATR_PERIOD) (trueRanges df)).headD 0)
      let atrPercent := if close > 0 then atr / close * 100 else 0
      ⟨btcTrendOf close es el, marketRegimeOf atrPercent, atrPercent⟩

/-- Modelled from the spec: "ATR%: exponential moving average of True Range
over `atr_period`, expressed as a percentage of the latest close
(`atr / close * 100`); if latest close <= 0, define ATR% as 0" (spec
section 4.1), with the EMA seeded at the chronologically earliest true
range and applied forward in time.  This is the comparison definition for
the ATR part of the source, which reads the smoothed column at row 0. -/
def specAtrPercent (df : List Candle) : ℚ :=
  let atr := forwardEmaLatest ATR_PERIOD (trueRanges df)
  let close := latestClose df
  if close > 0 then atr / close * 100 else 0

/-! ## Liquidity filter (_get_liquid_tickers, lines 88-115) -/

/-- The `(min_vol, min_oi)` pair chosen at lines 93-99: the strict pair
exactly for the Trending regime, the relaxed pair otherwise. -/
def liquidityThresholds (r : Regime) : ℚ × ℚ :=
  if r = Regime.trending then (STRICT_MIN_VOLUME_24H, STRICT_MIN_OPEN_INTEREST)
  else (RELAXED_MIN_VOLUME_24H, RELAXED_MIN_OPEN_INTEREST)

/-- Python `t['symbol'].endswith('USDT')` of line 105, evaluated on the
character list (`String.IsSuffix` on characters is the same predicate as
the byte-based suffix test, and reduces in the kernel). -/
def endsWithUSDT (s : String) : Bool :=
  decide (List.IsSuffix (("USDT").toList) s.toList)

/-- `_get_liquid_tickers` applied to a successfully fetched ticker list:
keep the USDT-suffixed symbols, then keep those with
`turnover24h >= min_vol` and `openInterestValue >= min_oi`. -/
def getLiquidTickers (r : Regime) (resp : List Ticker) : List Ticker :=
  let p := liquidityThresholds r
  let allTickers := resp.filter (fun t => endsWithUSDT t.symbol)
  allTickers.filter (fun t =>
    decide (p.1 ≤ t.turnover24h) && decide (p.2 ≤ t.openInterestValue))

/-! ## Per-symbol analysis (_analyze_single_symbol, lines 136-169) -/

/-- The body of `_analyze_single_symbol` from line 146 on, as a function of
the reference-row values `close`, `ema_short`, `ema_long` (the source reads
all three from `latest = df.iloc[0]`).  `ℚ` has no NaN, so the
`pd.isna(...)` guards of line 146 are vacuous here and only the
`ema_short == 0` guard remains.  Rejections: no clear EMA alignment
(line 151), or `|percent_diff| >= MAX_DISTANCE_FROM_EMA_PERCENT`
(line 155).  Accepted tickers are enriched with `trend_type` and `stage`
exactly as at lines 158-167. -/
def analyzeSingleCore (t : Ticker) (close es el : ℚ) : Option ScoredTicker :=
  if es = 0 then none
  else if ¬(es > el ∨ es < el) then none
  else
    let pd := (close - es) / es * 100
    if |pd| ≥ MAX_DISTANCE_FROM_EMA_PERCENT then none
    else
      let trendType := if es > el then ("bullish") else ("bearish")
      let stage :=
        if es > el ∧ pd ≥ 0 then
          (if pd < EARLY_STAGE_MAX_PERCENT then ("🌱 Early") else ("🌳 Mid"))
        else ("N/A")
      some ⟨t, trendType, stage⟩

/-- `_analyze_single_symbol`: `None` on a failed fetch or fewer than
`EMA_LONG_PERIOD` candles (line 140), otherwise the core analysis on the
row-0 values of the EMA columns. -/
def analyzeSingleSymbol (t : Ticker) (kline : Option (List Candle)) :
    Option ScoredTicker :=
  match kline with
  | none => none
  | some df =>
    if df.length < EMA_LONG_PERIOD then none
    else
      analyzeSingleCore t (latestClose df)
        (emaLatest EMA_SHORT_PERIOD df) (emaLatest EMA_LONG_PERIOD df)

/-! ## Screening orchestration (_screen_coins, lines 117-134)

Python's `list.sort` is a stable sort; it is embedded as a stable insertion
sort.  An element is inserted after every element whose key is at least as
large (descending variant) so that equal keys keep their insertion order,
which is the `as_completed` collection order in the source. -/

/-- Insert `a` into a descending-by-`key` list, after all entries whose key
is `≥ key a` (stable descending insertion). -/
def insertDesc {α β : Type} [LinearOrder β] (key : α → β) (a : α) :
    List α → List α
  | [] => [a]
  | b :: bs => if key b < key a then a :: b :: bs else b :: insertDesc key a bs

/-- Stable sort, descending by `key` (Python `sort(key=..., reverse=True)`). -/
def sortDescBy {α β : Type} [LinearOrder β] (key : α → β) (l : List α) :
    List α :=
  l.foldl (fun acc a => insertDesc key a acc) []

/-- Insert `a` into an ascending-by-`key` list, after all entries whose key
is `≤ key a` (stable ascending insertion). -/
def insertAsc {α β : Type} [LinearOrder β] (key : α → β) (a : α) :
    List α → List α
  | [] => [a]
  | b :: bs => if key a < key b then a :: b :: bs else b :: insertAsc key a bs

/-- Stable sort, ascending by `key` (Python `sort(key=...)`). -/
def sortAscBy {α β : Type} [LinearOrder β] (key : α → β) (l : List α) :
    List α :=
  l.foldl (fun acc a => insertAsc key a acc) []

/-- `_screen_coins` after the futures have completed: `collected` is the
list of accepted per-symbol results in `as_completed` collection order.
The source appends each result to the bullish or bearish list as it
arrives, sorts bullish descending and bearish ascending by
`float(x.get('price24hPcnt', 0))`, and truncates each side. -/
def screenCoins (collected : List ScoredTicker) :
    List ScoredTicker × List ScoredTicker :=
  let bullish := collected.filter (fun r => r.trend_type == "bullish")
  let bearish := collected.filter (fun r => r.trend_type == "bearish")
  ((sortDescBy (fun r => r.ticker.price24hPcnt) bullish).take TOP_BULLISH_COUNT,
   (sortAscBy (fun r => r.ticker.price24hPcnt) bearish).take TOP_BEARISH_COUNT)

/-! ## The final-revision Symbol Scorer, modelled from the spec

The health-score scorer described in spec sections 3 ("ScoredSymbol ...
health_score: integer 0-100") and 4.4 belongs to the final analyzer
revision, which is not among the files under `src/` (the `src/` analyzer,
v2.0, computes no score); the definitions below follow the spec's words. -/

/-- Trend direction of the spec scorer. -/
inductive SpecTrendDir where
  | bullish
  | bearish
deriving DecidableEq

/-- Reference-row indicator values consumed by the spec scorer.  `none` at
the use sites models `InsufficientData`. -/
structure SymbolIndicators where
  close : ℚ
  ema_short : ℚ
  ema_long : ℚ
deriving DecidableEq

/-- A spec-scorer acceptance: the snapshot enriched with direction, stage
and health score. -/
structure SpecScored where
  ticker : Ticker
  direction : SpecTrendDir
  stage : String
  health_score : ℤ
deriving DecidableEq

/-- Modelled from the spec: step 2 of section 4.4,
`separation% = (ema_short - ema_long) / ema_long * 100`. -/
def sepPercent (es el : ℚ) : ℚ := (es - el) / el * 100

/-- Modelled from the spec: steps 1-3 of section 4.4.  Rejection on
`InsufficientData` (`none` input) or `ema_long == 0`; bullish structure for
`separation% > 0`, bearish for `separation% < 0`, rejection for `== 0`. -/
def trendDirectionSpec : Option SymbolIndicators → Option SpecTrendDir
  | none => none
  | some i =>
    if i.ema_long = 0 then none
    else if sepPercent i.ema_short i.ema_long > 0 then some SpecTrendDir.bullish
    else if sepPercent i.ema_short i.ema_long < 0 then some SpecTrendDir.bearish
    else none

/-- Modelled from the spec: step 5 of section 4.4, the momentum
confirmation — bullish structure requires `close > ema_short`, bearish
requires `close < ema_short`. -/
def momentumConfirmed (close es sep : ℚ) : Bool :=
  if sep > 0 then decide (close > es) else decide (close < es)

/-- Modelled from the spec: step 6 of section 4.4, the proximity test
`|close - ema_short| / ema_short * 100 < MAX_DISTANCE_FROM_EMA_PERCENT`
(in `ℚ` a zero `ema_short` makes the quotient 0, the defined fallback the
spec's DivisionGuard rule asks for). -/
def proximityOk (close es : ℚ) : Bool :=
  decide (|close - es| / es * 100 < MAX_DISTANCE_FROM_EMA_PERCENT)

/-- Modelled from the spec: steps 4-7 of section 4.4.  Separation score
`min(50, round(|separation%| * 10))`, plus 30 when momentum confirms the
structure direction, plus 20 when the proximity test passes. -/
def healthScoreSpec (close es el : ℚ) : ℤ :=
  min 50 (round (|sepPercent es el| * 10)) +
    (if momentumConfirmed close es (sepPercent es el) then 30 else 0) +
    (if proximityOk close es then 20 else 0)

/-- Modelled from the spec: step 9 of section 4.4, the stage of a bullish
candidate: `dist% = (close - ema_short)/ema_short*100`; "Early" when
`0 ≤ dist% < EARLY_STAGE_MAX_PERCENT`, "Mid" when bullish and `dist% ≥ 0`
otherwise, and "N/A" for everything else. -/
def stageSpec (dir : SpecTrendDir) (close es : ℚ) : String :=
  let dist := (close - es) / es * 100
  if dir = SpecTrendDir.bullish ∧ dist ≥ 0 then
    (if dist < EARLY_STAGE_MAX_PERCENT then ("Early") else ("Mid"))
  else ("N/A")

/-- Modelled from the spec: the Symbol Scorer of section 4.4 (steps 1-9).
Rejection on `InsufficientData`, `ema_long == 0` or zero separation (via
`trendDirectionSpec`), and on a total below the regime's minimum health
score (step 8); otherwise the snapshot is returned enriched with the
direction, stage and health score. -/
def scoreSymbolSpec (t : Ticker) (ind : Option SymbolIndicators)
    (minHealth : ℤ) : Option SpecScored :=
  match ind, trendDirectionSpec ind with
  | some i, some dir =>
    let score := healthScoreSpec i.close i.ema_short i.ema_long
    if score < minHealth then none
    else some ⟨t, dir, stageSpec dir i.close i.ema_short, score⟩
  | _, _ => none

/-- Modelled from the spec: one side of the Screening Orchestrator of
section 4.5 — the accepted results (in original snapshot order) restricted
to one direction, stably sorted by health score descending, truncated to
the configured count. -/
def rankSideSpec (dir : SpecTrendDir) (results : List SpecScored) (n : ℕ) :
    List SpecScored :=
  ((sortDescBy (fun s => s.health_score)
    (results.filter (fun s => decide (s.direction = dir))))).take n

/-- Modelled from the spec: the Screening Orchestrator's final ranking —
the bullish partition truncated to `TOP_BULLISH_COUNT` and the bearish
partition truncated to `TOP_BEARISH_COUNT`. -/
def screenSpec (results : List SpecScored) :
    List SpecScored × List SpecScored :=
  (rankSideSpec SpecTrendDir.bullish results TOP_BULLISH_COUNT,
   rankSideSpec SpecTrendDir.bearish results TOP_BEARISH_COUNT)

/-! ## Concrete inputs used by counterexamples and witnesses -/

/-- A 200-candle step series, newest-first: the newest close is 200, the
199 older closes are all 100.  Long enough to pass the
`EMA_LONG_PERIOD` guard. -/
def stepCandles : List Candle :=
  (⟨200, 200, 200⟩ : Candle) :: List.replicate 199 (⟨100, 100, 100⟩ : Candle)

/-- A 200-candle series, newest-first, whose newest bar has true range 2
while the 199 older bars all have true range 20. -/
def atrCandles : List Candle :=
  (⟨101, 99, 100⟩ : Candle) :: List.replicate 199 (⟨110, 90, 100⟩ : Candle)

/-- A concrete ticker snapshot used by witnesses. -/
def tickerA : Ticker := ⟨"AAAUSDT", 30000000, 30000000, 5⟩

/-- A second snapshot, identical to `tickerA` except for the symbol. -/
def tickerB : Ticker := ⟨"BBBUSDT", 30000000, 30000000, 5⟩

/-- A liquid snapshot clearing the strict thresholds. -/
def tickerC : Ticker := ⟨"CCCUSDT", 60000000, 60000000, 7⟩

/-- An accepted bullish result for `tickerA`. -/
def resA : ScoredTicker := ⟨tickerA, "bullish", "N/A"⟩

/-- An accepted bullish result for `tickerB`, with the same
`price24hPcnt` sort key as `resA`. -/
def resB : ScoredTicker := ⟨tickerB, "bullish", "N/A"⟩

/-- A spec-scored bullish symbol with health score 40. -/
def specR1 : SpecScored := ⟨tickerA, SpecTrendDir.bullish, "Early", 40⟩

/-- A spec-scored bullish symbol with health score 70. -/
def specR2 : SpecScored := ⟨tickerB, SpecTrendDir.bullish, "Early", 70⟩

/-- The result `_analyze_single_symbol`'s core produces for `tickerA` with
reference values `close = 106`, `ema_short = 100`, `ema_long = 90`. -/
def resMid : ScoredTicker := ⟨tickerA, "bullish", "🌳 Mid"⟩

/-- Reference-row indicator values matching the spec's worked scenario
(`ema_short = 110`, `ema_long = 100`, `close = 112`). -/
def indW : SymbolIndicators := ⟨112, 110, 100⟩

/-- The spec scorer's output on `indW` for `tickerA`: bullish, Early,
health score 100. -/
def specW : SpecScored := ⟨tickerA, SpecTrendDir.bullish, "Early", 100⟩

/-! ## General lemmas about the embedded computations -/

/-- Row 0 of an `adjust=False` exponentially weighted mean column is the
row-0 input itself: the recurrence seeds at the first row in DataFrame
order. -/
theorem headD_ewmAdjFalse (a x : ℚ) (xs : List ℚ) :
    (ewmAdjFalse a (x :: xs)).headD 0 = x := by
  cases xs <;> simp [ewmAdjFalse, ewmRun]

/-- Membership in a stable descending insertion. -/
theorem mem_insertDesc {α β : Type} [LinearOrder β] (key : α → β) (a x : α) :
    ∀ l : List α, x ∈ insertDesc key a l ↔ x = a ∨ x ∈ l := by
  intro l
  induction l with
  | nil => simp [insertDesc]
  | cons b bs ih =>
    unfold insertDesc
    split_ifs with h
    · simp [List.mem_cons]
    · simp [List.mem_cons, ih]
      tauto

/-- Stable descending insertion preserves descending order. -/
theorem pairwise_insertDesc {α β : Type} [LinearOrder β] (key : α → β) (a : α) :
    ∀ l : List α, l.Pairwise (fun p q => key q ≤ key p) →
      (insertDesc key a l).Pairwise (fun p q => key q ≤ key p) := by
  intro l
  induction l with
  | nil => intro _; simp [insertDesc]
  | cons b bs ih =>
    intro hp
    rw [List.pairwise_cons] at hp
    unfold insertDesc
    split_ifs with h
    · rw [List.pairwise_cons]
      refine ⟨?_, List.pairwise_cons.mpr hp⟩
      intro x hx
      rcases List.mem_cons.mp hx with rfl | hx'
      · exact h.le
      · exact le_trans (hp.1 x hx') h.le
    · rw [List.pairwise_cons]
      refine ⟨?_, ih hp.2⟩
      intro x hx
      rcases (mem_insertDesc key a x bs).mp hx with rfl | hx'
      · exact not_lt.mp h
      · exact hp.1 x hx'

/-- Inserting an element whose key misses `v` does not change the
restriction to key `v`. -/
theorem filter_insertDesc_of_ne {α β : Type} [LinearOrder β] (key : α → β)
    (a : α) (v : β) (hv : ¬(key a = v)) :
    ∀ l : List α,
      (insertDesc key a l).filter (fun x => decide (key x = v)) =
        l.filter (fun x => decide (key x = v)) := by
  intro l
  induction l with
  | nil => simp [insertDesc, hv]
  | cons b bs ih =>
    unfold insertDesc
    split_ifs with h
    · simp [List.filter_cons, hv]
    · simp [List.filter_cons, ih]

/-- Inserting an element whose key equals `v` into a descending-sorted
list appends it at the end of the restriction to key `v`: stable
insertion keeps earlier equal-key elements first. -/
theorem filter_insertDesc_of_eq {α β : Type} [LinearOrder β] (key : α → β)
    (a : α) (v : β) (hv : key a = v) :
    ∀ l : List α, l.Pairwise (fun p q => key q ≤ key p) →
      (insertDesc key a l).filter (fun x => decide (key x = v)) =
        l.filter (fun x => decide (key x = v)) ++ [a] := by
  intro l
  induction l with
  | nil => intro _; simp [insertDesc, hv]
  | cons b bs ih =>
    intro hp
    rw [List.pairwise_cons] at hp
    unfold insertDesc
    split_ifs with h
    · have hball : ∀ x ∈ b :: bs, ¬(key x = v) := by
        intro x hx
        rcases List.mem_cons.mp hx with rfl | hx'
        · intro he
          rw [he, ← hv] at h
          exact lt_irrefl _ h
        · intro he
          have hxb := hp.1 x hx'
          rw [he, ← hv] at hxb
          exact absurd (lt_of_le_of_lt hxb h) (lt_irrefl _)
      have h1 : (b :: bs).filter (fun x => decide (key x = v)) = [] := by
        rw [List.filter_eq_nil_iff]
        intro x hx
        simpa using hball x hx
      rw [List.filter_cons, h1]
      simp [hv]
    · rw [List.filter_cons, List.filter_cons, ih hp.2]
      by_cases hb : key b = v <;> simp [hb]

/-- Pairwise order of the insertion-sort fold, for any sorted
accumulator. -/
theorem sortDescAux_pairwise {α β : Type} [LinearOrder β] (key : α → β) :
    ∀ (l acc : List α), acc.Pairwise (fun p q => key q ≤ key p) →
      (l.foldl (fun acc a => insertDesc key a acc) acc).Pairwise
        (fun p q => key q ≤ key p) := by
  intro l
  induction l with
  | nil => intro acc h; simpa using h
  | cons a l ih =>
    intro acc h
    exact ih _ (pairwise_insertDesc key a acc h)

/-- A stable descending sort is descending in the key. -/
theorem sortDescBy_pairwise {α β : Type} [LinearOrder β] (key : α → β)
    (l : List α) :
    (sortDescBy key l).Pairwise (fun p q => key q ≤ key p) :=
  sortDescAux_pairwise key l [] (by simp)

/-- Key-v restriction of the insertion-sort fold: the fold appends the
key-v elements of the input, in input order, after those of the
accumulator. -/
theorem sortDescAux_filter {α β : Type} [LinearOrder β] (key : α → β) (v : β) :
    ∀ (l acc : List α), acc.Pairwise (fun p q => key q ≤ key p) →
      (l.foldl (fun acc a => insertDesc key a acc) acc).filter
          (fun x => decide (key x = v)) =
        acc.filter (fun x => decide (key x = v)) ++
          l.filter (fun x => decide (key x = v)) := by
  intro l
  induction l with
  | nil => intro acc h; simp
  | cons a l ih =>
    intro acc h
    simp only [List.foldl_cons]
    rw [ih _ (pairwise_insertDesc key a acc h)]
    by_cases hv : key a = v
    · rw [filter_insertDesc_of_eq key a v hv acc h]
      simp [List.filter_cons, hv]
    · rw [filter_insertDesc_of_ne key a v hv acc]
      simp [List.filter_cons, hv]

/-- Stability of `sortDescBy`: restricted to any single key value, the
sorted list is the input list. -/
theorem sortDescBy_filter_eq {α β : Type} [LinearOrder β] (key : α → β)
    (v : β) (l : List α) :
    (sortDescBy key l).filter (fun x => decide (key x = v)) =
      l.filter (fun x => decide (key x = v)) := by
  have h := sortDescAux_filter key v l [] (by simp)
  simpa [sortDescBy] using h

/-- Membership in the insertion-sort fold. -/
theorem sortDescAux_mem {α β : Type} [LinearOrder β] (key : α → β) (x : α) :
    ∀ (l acc : List α),
      x ∈ l.foldl (fun acc a => insertDesc key a acc) acc ↔ x ∈ acc ∨ x ∈ l := by
  intro l
  induction l with
  | nil => intro acc; simp
  | cons a l ih =>
    intro acc
    simp only [List.foldl_cons]
    rw [ih, mem_insertDesc]
    simp [List.mem_cons]
    tauto

/-- A stable descending sort is a reordering: same members. -/
theorem sortDescBy_mem {α β : Type} [LinearOrder β] (key : α → β) (x : α)
    (l : List α) : x ∈ sortDescBy key l ↔ x ∈ l := by
  have h := sortDescAux_mem key x l []
  simpa [sortDescBy] using h

/-- Default-independence of `getLastD` on the never-empty `ewmRun`. -/
theorem ewmRun_getLastD_default (a p : ℚ) (l : List ℚ) (d1 d2 : ℚ) :
    (ewmRun a p l).getLastD d1 = (ewmRun a p l).getLastD d2 := by
  cases l <;> simp only [ewmRun, List.getLastD_cons]

/-- A run of inputs equal to the current value leaves the `adjust=False`
recurrence stationary: the final value depends only on what follows. -/
theorem ewmRun_getLastD_replicate (a p : ℚ) :
    ∀ (n : ℕ) (l : List ℚ) (d : ℚ),
      (ewmRun a p (List.replicate n p ++ l)).getLastD d =
        (ewmRun a p l).getLastD d := by
  intro n
  induction n with
  | zero => intro l d; simp
  | succ m ih =>
    intro l d
    rw [List.replicate_succ, List.cons_append]
    simp only [ewmRun, List.getLastD_cons]
    rw [(by ring : a * p + (1 - a) * p = p), ih l p]
    exact ewmRun_getLastD_default a p l p d

/-- Forward EMA at the most recent element of a newest-first series whose
older part is constant: one recurrence step from the constant level. -/
theorem forwardEmaLatest_step (s : ℕ) (p q : ℚ) (m : ℕ) :
    forwardEmaLatest s (q :: List.replicate (m + 1) p) =
      alphaOfSpan s * q + (1 - alphaOfSpan s) * p := by
  unfold forwardEmaLatest
  rw [List.reverse_cons, List.reverse_replicate, List.replicate_succ,
    List.cons_append]
  simp only [ewmAdjFalse]
  rw [ewmRun_getLastD_replicate (alphaOfSpan s) p m ([q]) 0]
  simp [ewmRun, List.getLastD_cons]

/-- True ranges of a constant run of candles whose own high-low range
dominates the shifted terms. -/
theorem trueRanges_replicate (c : Candle)
    (h : max (c.high - c.low) (max |c.high - c.close| |c.low - c.close|) =
      c.high - c.low) :
    ∀ n : ℕ, trueRanges (List.replicate n c) =
      List.replicate n (c.high - c.low) := by
  intro n
  induction n with
  | zero => simp [trueRanges]
  | succ m ih =>
    cases m with
    | zero => simp [List.replicate, trueRanges]
    | succ k =>
      rw [List.replicate_succ, List.replicate_succ]
      simp only [trueRanges]
      rw [h, ← List.replicate_succ]
      rw [ih, List.replicate_succ (c.high - c.low) (k+1)]

/-! ## Claim theorems -/

/-- Claim C2 (code bug): the spec requires each EMA to be seeded with the
chronologically earliest close and applied forward in time, with the value
at the most recent candle used for classification.  The source instead
applies `ewm` down the newest-first rows and reads row 0, so the EMA value
it uses is always the seed — the newest close itself, for every span and
every series.  On the 200-candle step series whose newest close is 200
after 199 closes of 100, the source's reference EMA (span 50) is 200,
whereas the forward recurrence required by the claim gives 5300/51. -/
theorem ema_reference_equals_seed :
    (∀ (s : ℕ) (c : ℚ) (cs : List ℚ), emaLatestCloses s (c :: cs) = c) ∧
    emaLatest EMA_SHORT_PERIOD stepCandles = 200 ∧
    forwardEmaLatest EMA_SHORT_PERIOD (closesOf stepCandles) = 5300 / 51 ∧
    ((200 : ℚ) ≠ 5300 / 51) := by
  refine ⟨fun s c cs => headD_ewmAdjFalse _ c cs, ?_, ?_, by norm_num⟩
  · rfl
  · have h1 : closesOf stepCandles = (200 : ℚ) :: List.replicate 199 100 := by
      simp [closesOf, stepCandles, List.map_replicate]
    rw [h1, (by norm_num : (199 : ℕ) = 198 + 1), forwardEmaLatest_step]
    norm_num [alphaOfSpan, EMA_SHORT_PERIOD]

/-- Claim C5 (code bug): the per-bar true range does match the claimed
`max(high-low, |high - prevClose|, |low - prevClose|)` with `prevClose`
taken from the next array slot, but `atr` is the `ewm` column of the true
ranges read at row 0 — the newest bar's true range alone, not an
exponential moving average over `atr_period`.  On a 200-candle series
whose newest bar has true range 2 after 199 bars of true range 20, the
source computes `atr_percent = 2` while the EMA of true range demanded by
the claim gives `88/5 = 17.6` (which would also flip the regime from
Choppy to Trending). -/
theorem atr_reference_equals_latest_tr :
    (∀ (c c2 : Candle) (rest : List Candle),
      (trueRanges (c :: c2 :: rest)).headD 0 =
        max (c.high - c.low) (max |c.high - c2.close| |c.low - c2.close|)) ∧
    (analyzeMacroConditions (some atrCandles)).atr_percent = 2 ∧
    specAtrPercent atrCandles = 88 / 5 ∧
    ((2 : ℚ) ≠ 88 / 5) := by
  have hc : trueRanges (List.replicate 199 (⟨110, 90, 100⟩ : Candle)) =
      List.replicate 199 (20 : ℚ) := by
    have h20 := trueRanges_replicate (⟨110, 90, 100⟩ : Candle) (by norm_num) 199
    norm_num at h20
    exact h20
  have h199 : (199 : ℕ) = 198 + 1 := by norm_num
  have htr : trueRanges atrCandles = (2 : ℚ) :: List.replicate 199 (20 : ℚ) := by
    unfold atrCandles
    rw [h199, List.replicate_succ]
    rw [trueRanges]
    rw [← List.replicate_succ, ← h199, hc]
    norm_num
  have hlen : ¬(atrCandles.length < EMA_LONG_PERIOD) := by
    simp [atrCandles, EMA_LONG_PERIOD, List.length_replicate]
  have hclose : latestClose atrCandles = 100 := by
    simp [latestClose, closesOf, atrCandles]
  refine ⟨fun c c2 rest => rfl, ?_, ?_, by norm_num⟩
  · simp only [analyzeMacroConditions]
    rw [if_neg hlen]
    simp only [htr, hclose, headD_ewmAdjFalse]
    norm_num
  · simp only [specAtrPercent]
    rw [htr, hclose, h199, forwardEmaLatest_step]
    norm_num [alphaOfSpan, ATR_PERIOD]

/-- Claim C6 (code bug): `_screen_coins` appends accepted results in
`as_completed` order and then sorts with the (stable) Python sort keyed on
`price24hPcnt`; two accepted bullish results with equal `price24hPcnt`
therefore come out in whichever order they were collected, so the final
ranking is not invariant under permuting the collection order, contrary to
the spec's determinism requirement. -/
theorem screen_coins_collection_order_dependent :
    screenCoins [resA, resB] ≠ screenCoins [resB, resA] := by
  decide

/-- Claim C4: for every IndicatorSet the trend label is Bullish iff
`close > ema_short > ema_long`, Bearish iff `close < ema_short < ema_long`
and Neutral otherwise; the regime label is Trending iff
`atr_percent > ATR_TRENDING_THRESHOLD`, Quiet iff
`atr_percent < ATR_QUIET_THRESHOLD` and Choppy otherwise; the Bullish and
Bearish conditions (and the Trending and Quiet conditions) are mutually
exclusive, and identical inputs yield identical label pairs. -/
theorem regime_classifier_labels :
    ∀ c es el a : ℚ,
      (btcTrendOf c es el = Trend.bullish ↔ (c > es ∧ es > el)) ∧
      (btcTrendOf c es el = Trend.bearish ↔ (c < es ∧ es < el)) ∧
      (btcTrendOf c es el = Trend.neutral ↔
        (¬(c > es ∧ es > el) ∧ ¬(c < es ∧ es < el))) ∧
      (marketRegimeOf a = Regime.trending ↔ a > ATR_TRENDING_THRESHOLD) ∧
      (marketRegimeOf a = Regime.quiet ↔ a < ATR_QUIET_THRESHOLD) ∧
      (marketRegimeOf a = Regime.choppy ↔
        (ATR_QUIET_THRESHOLD ≤ a ∧ a ≤ ATR_TRENDING_THRESHOLD)) ∧
      (¬((c > es ∧ es > el) ∧ (c < es ∧ es < el))) ∧
      (¬(a > ATR_TRENDING_THRESHOLD ∧ a < ATR_QUIET_THRESHOLD)) ∧
      (∀ c2 es2 el2 a2 : ℚ, c = c2 → es = es2 → el = el2 → a = a2 →
        btcTrendOf c es el = btcTrendOf c2 es2 el2 ∧
          marketRegimeOf a = marketRegimeOf a2) := by
  intro c es el a
  have hex : ¬((c > es ∧ es > el) ∧ (c < es ∧ es < el)) := by
    rintro ⟨⟨h1, _⟩, ⟨h2, _⟩⟩
    exact absurd h1 (not_lt.mpr h2.le)
  have hqt : ATR_QUIET_THRESHOLD < ATR_TRENDING_THRESHOLD := by
    norm_num [ATR_QUIET_THRESHOLD, ATR_TRENDING_THRESHOLD]
  have hex2 : ¬(a > ATR_TRENDING_THRESHOLD ∧ a < ATR_QUIET_THRESHOLD) := by
    rintro ⟨h1, h2⟩
    linarith
  refine ⟨?_, ?_, ?_, ?_, ?_, ?_, hex, hex2, ?_⟩
  · unfold btcTrendOf
    split_ifs with h1 h2 <;> simp_all
  · unfold btcTrendOf
    split_ifs with h1 h2 <;> simp_all
  · unfold btcTrendOf
    split_ifs with h1 h2 <;> simp_all
  · unfold marketRegimeOf
    split_ifs with h1 h2 <;> simp_all
  · unfold marketRegimeOf
    split_ifs with h1 h2 <;> simp_all
  · unfold marketRegimeOf
    split_ifs with h1 h2 <;> simp_all
  · rintro c2 es2 el2 a2 rfl rfl rfl rfl
    exact ⟨rfl, rfl⟩

/-- Claim C7: a missing fetch or fewer than `EMA_LONG_PERIOD` candles
yields no partial indicator values — `_analyze_macro_conditions` degrades
both labels to Unknown, and `_analyze_single_symbol` rejects the symbol
outright (returns `None`, not a zero-score entry). -/
theorem insufficient_data_degrades :
    ∀ (t : Ticker) (kline : Option (List Candle)),
      (∀ df, kline = some df → df.length < EMA_LONG_PERIOD) →
      (analyzeMacroConditions kline).btc_trend = Trend.unknown ∧
      (analyzeMacroConditions kline).market_regime = Regime.unknown ∧
      analyzeSingleSymbol t kline = none := by
  intro t kline h
  cases kline with
  | none => exact ⟨rfl, rfl, rfl⟩
  | some df =>
    have hlen := h df rfl
    refine ⟨?_, ?_, ?_⟩ <;> simp [analyzeMacroConditions, analyzeSingleSymbol, hlen]

/-- Witness for C7 at a concrete five-candle series. -/
theorem insufficient_data_degrades_witness :
    (analyzeMacroConditions (some (List.replicate 5 (⟨1, 1, 1⟩ : Candle)))).btc_trend
        = Trend.unknown ∧
    (analyzeMacroConditions (some (List.replicate 5 (⟨1, 1, 1⟩ : Candle)))).market_regime
        = Regime.unknown ∧
    analyzeSingleSymbol tickerA (some (List.replicate 5 (⟨1, 1, 1⟩ : Candle))) = none :=
  insufficient_data_degrades tickerA (some (List.replicate 5 (⟨1, 1, 1⟩ : Candle)))
    (fun df hdf => by cases hdf; decide)

/-- Claim C8: the liquidity filter selects the strict threshold pair
exactly for the Trending regime and the relaxed pair for every other
regime (Unknown included), and — on inputs satisfying the spec's
USDT-suffix precondition — returns exactly the order-preserving
subsequence of snapshots with `turnover24h >= min_vol` and
`openInterestValue >= min_oi`. -/
theorem liquidity_filter_behaviour :
    ∀ (r : Regime) (resp : List Ticker),
      (∀ t ∈ resp, endsWithUSDT t.symbol = true) →
      getLiquidTickers r resp =
        resp.filter (fun t =>
          decide ((liquidityThresholds r).1 ≤ t.turnover24h) &&
            decide ((liquidityThresholds r).2 ≤ t.openInterestValue)) ∧
      List.Sublist (getLiquidTickers r resp) resp ∧
      (liquidityThresholds r = (STRICT_MIN_VOLUME_24H, STRICT_MIN_OPEN_INTEREST)
          ↔ r = Regime.trending) ∧
      (liquidityThresholds r = (RELAXED_MIN_VOLUME_24H, RELAXED_MIN_OPEN_INTEREST)
          ↔ ¬(r = Regime.trending)) := by
  intro r resp husdt
  have hfix : resp.filter (fun t => endsWithUSDT t.symbol) = resp :=
    List.filter_eq_self.mpr husdt
  refine ⟨?_, ?_, ?_, ?_⟩
  · simp only [getLiquidTickers]
    rw [hfix]
  · exact (List.filter_sublist _).trans (List.filter_sublist _)
  · cases r <;>
      norm_num [liquidityThresholds, STRICT_MIN_VOLUME_24H,
        STRICT_MIN_OPEN_INTEREST, RELAXED_MIN_VOLUME_24H,
        RELAXED_MIN_OPEN_INTEREST]
  · cases r <;>
      norm_num [liquidityThresholds, STRICT_MIN_VOLUME_24H,
        STRICT_MIN_OPEN_INTEREST, RELAXED_MIN_VOLUME_24H,
        RELAXED_MIN_OPEN_INTEREST]

/-- Witness for C8: an Unknown regime uses the relaxed pair, and the
filter on two concrete snapshots is the threshold filter. -/
theorem liquidity_filter_behaviour_witness :
    getLiquidTickers Regime.unknown ([tickerA, tickerC]) =
      ([tickerA, tickerC]).filter (fun t =>
        decide ((liquidityThresholds Regime.unknown).1 ≤ t.turnover24h) &&
          decide ((liquidityThresholds Regime.unknown).2 ≤ t.openInterestValue)) ∧
    (liquidityThresholds Regime.unknown =
        (RELAXED_MIN_VOLUME_24H, RELAXED_MIN_OPEN_INTEREST)
      ↔ ¬(Regime.unknown = Regime.trending)) :=
  ⟨(liquidity_filter_behaviour Regime.unknown ([tickerA, tickerC])
      (by decide)).1,
   (liquidity_filter_behaviour Regime.unknown ([tickerA, tickerC])
      (by decide)).2.2.2⟩

/-- Claim C10: every accepted symbol satisfies
`|close - ema_short| / ema_short * 100 < MAX_DISTANCE_FROM_EMA_PERCENT`
(at or beyond the bound the symbol is rejected outright, line 155), and a
result staged "Mid" has its distance percentage in
`[EARLY_STAGE_MAX_PERCENT, MAX_DISTANCE_FROM_EMA_PERCENT)`. -/
theorem accepted_distance_bounds :
    ∀ (t : Ticker) (close es el : ℚ) (s : ScoredTicker),
      analyzeSingleCore t close es el = some s →
      |close - es| / es * 100 < MAX_DISTANCE_FROM_EMA_PERCENT ∧
      (s.stage = ("🌳 Mid") →
        EARLY_STAGE_MAX_PERCENT ≤ (close - es) / es * 100 ∧
        (close - es) / es * 100 < MAX_DISTANCE_FROM_EMA_PERCENT) := by
  intro t close es el s h
  simp only [analyzeSingleCore] at h
  by_cases h0 : es = 0
  · rw [if_pos h0] at h
    exact absurd h (by simp)
  rw [if_neg h0] at h
  by_cases h1 : ¬(es > el ∨ es < el)
  · rw [if_pos h1] at h
    exact absurd h (by simp)
  rw [if_neg h1] at h
  by_cases h2 : |(close - es) / es * 100| ≥ MAX_DISTANCE_FROM_EMA_PERCENT
  · rw [if_pos h2] at h
    exact absurd h (by simp)
  rw [if_neg h2] at h
  rw [Option.some.injEq] at h
  subst h
  rw [not_le] at h2
  have habs : |(close - es) / es * 100| = |close - es| / |es| * 100 := by
    rw [abs_mul, abs_div]
    norm_num
  have hpd15 : (close - es) / es * 100 ≤ |(close - es) / es * 100| :=
    le_abs_self _
  have hmax : (0 : ℚ) < MAX_DISTANCE_FROM_EMA_PERCENT := by
    norm_num [MAX_DISTANCE_FROM_EMA_PERCENT]
  constructor
  · rcases lt_trichotomy es 0 with hneg | hzero | hpos
    · have hnum : (0 : ℚ) ≤ |close - es| := abs_nonneg _
      have hq : |close - es| / es ≤ 0 := div_nonpos_iff.mpr (Or.inl ⟨hnum, hneg.le⟩)
      nlinarith
    · exact absurd hzero h0
    · rw [habs, abs_of_pos hpos] at h2
      exact h2
  · intro hst
    simp only at hst
    split_ifs at hst with ha hb
    · exact absurd hst (by decide)
    · refine ⟨not_lt.mp (by simpa [EARLY_STAGE_MAX_PERCENT] using hb), ?_⟩
      exact lt_of_le_of_lt hpd15 h2
    · exact absurd hst (by decide)

/-- Witness for C10 at a concrete accepted Mid-stage result. -/
theorem accepted_distance_bounds_witness :
    |(106 : ℚ) - 100| / 100 * 100 < MAX_DISTANCE_FROM_EMA_PERCENT ∧
    (resMid.stage = ("🌳 Mid") →
      EARLY_STAGE_MAX_PERCENT ≤ ((106 : ℚ) - 100) / 100 * 100 ∧
      ((106 : ℚ) - 100) / 100 * 100 < MAX_DISTANCE_FROM_EMA_PERCENT) :=
  accepted_distance_bounds tickerA 106 100 90 resMid
    (by norm_num [analyzeSingleCore, resMid, MAX_DISTANCE_FROM_EMA_PERCENT,
      EARLY_STAGE_MAX_PERCENT])

/-- Witness for C4 at the spec's worked scenario
(`close=105, ema_short=100, ema_long=90, atr_percent=3`). -/
theorem regime_classifier_labels_witness :
    btcTrendOf 105 100 90 = Trend.bullish ∧
    marketRegimeOf 3 = Regime.trending ∧
    (btcTrendOf 105 100 90, marketRegimeOf 3) =
      (btcTrendOf 105 100 90, marketRegimeOf 3) :=
  ⟨((regime_classifier_labels 105 100 90 3).1).mpr (by norm_num),
   ((regime_classifier_labels 105 100 90 3).2.2.2.1).mpr
     (by norm_num [ATR_TRENDING_THRESHOLD]),
   (regime_classifier_labels 105 100 90 3).2.2.2.2.2.2.2.2 105 100 90 3
     rfl rfl rfl rfl |>.1 ▸ rfl⟩

/-- Health scores of the spec scorer lie in `[0, 100]`: the separation
part is `min 50 (round ...)` of a nonnegative quantity and the two bonuses
add at most 50. -/
theorem healthScoreSpec_bounds (close es el : ℚ) :
    0 ≤ healthScoreSpec close es el ∧ healthScoreSpec close es el ≤ 100 := by
  unfold healthScoreSpec
  have h0 : (0 : ℤ) ≤ round (|sepPercent es el| * 10) := by
    rw [round_eq]
    apply Int.floor_nonneg.mpr
    positivity
  have hmin0 : (0 : ℤ) ≤ min 50 (round (|sepPercent es el| * 10)) :=
    le_min (by norm_num) h0
  have hmin50 : min 50 (round (|sepPercent es el| * 10)) ≤ (50 : ℤ) :=
    min_le_left _ _
  constructor <;> split_ifs <;> omega

/-- Claim C1: an accepted spec-scored symbol carries exactly the additive
composite `min(50, round(|separation%| * 10))` plus a 30-point momentum
bonus plus a 20-point proximity bonus; the total is an integer in
`[0, 100]`; and a total below the regime's minimum health score is
rejected (no output). -/
theorem spec_health_score_composite :
    ∀ (t : Ticker) (i : SymbolIndicators) (minHealth : ℤ) (s : SpecScored),
      (scoreSymbolSpec t (some i) minHealth = some s →
        s.health_score =
          min 50 (round (|sepPercent i.ema_short i.ema_long| * 10)) +
            (if momentumConfirmed i.close i.ema_short
                (sepPercent i.ema_short i.ema_long) then 30 else 0) +
            (if proximityOk i.close i.ema_short then 20 else 0) ∧
        0 ≤ s.health_score ∧ s.health_score ≤ 100) ∧
      (healthScoreSpec i.close i.ema_short i.ema_long < minHealth →
        scoreSymbolSpec t (some i) minHealth = none) := by
  intro t i minHealth s
  constructor
  · intro h
    cases hdir : trendDirectionSpec (some i) with
    | none =>
      simp only [scoreSymbolSpec, hdir] at h
      exact absurd h (by simp)
    | some dir =>
      simp only [scoreSymbolSpec, hdir] at h
      split_ifs at h with hlt
      rw [Option.some.injEq] at h
      subst h
      exact ⟨rfl, healthScoreSpec_bounds i.close i.ema_short i.ema_long⟩
  · intro hscore
    cases hdir : trendDirectionSpec (some i) with
    | none => simp only [scoreSymbolSpec, hdir]
    | some dir =>
      simp only [scoreSymbolSpec, hdir]
      rw [if_pos hscore]

/-- Witness for C1: the spec's worked scenario is accepted at threshold 55
with score `50 + 30 + 20 = 100`, and is rejected at threshold 101. -/
theorem spec_health_score_composite_witness :
    (specW.health_score =
        min 50 (round (|sepPercent indW.ema_short indW.ema_long| * 10)) +
          (if momentumConfirmed indW.close indW.ema_short
              (sepPercent indW.ema_short indW.ema_long) then 30 else 0) +
          (if proximityOk indW.close indW.ema_short then 20 else 0) ∧
      0 ≤ specW.health_score ∧ specW.health_score ≤ 100) ∧
    scoreSymbolSpec tickerB (some indW) 101 = none :=
  ⟨(spec_health_score_composite tickerA indW 55 specW).1
    (by norm_num [scoreSymbolSpec, trendDirectionSpec, sepPercent, indW,
      healthScoreSpec, momentumConfirmed, proximityOk, round_eq,
      MAX_DISTANCE_FROM_EMA_PERCENT, stageSpec, EARLY_STAGE_MAX_PERCENT,
      specW, tickerA]),
   (spec_health_score_composite tickerB indW 101 specW).2
    (by norm_num [healthScoreSpec, sepPercent, indW, momentumConfirmed,
      proximityOk, round_eq, MAX_DISTANCE_FROM_EMA_PERCENT])⟩

/-- Claim C9: the spec scorer rejects on `InsufficientData` (a missing
indicator set) and on `ema_long == 0`, rejects when `separation% == 0`,
and otherwise assigns bullish direction for `separation% > 0` and bearish
for `separation% < 0`; an accepted output carries exactly that assigned
direction. -/
theorem spec_direction_assignment :
    ∀ (t : Ticker) (i : SymbolIndicators) (minHealth : ℤ),
      trendDirectionSpec none = none ∧
      (trendDirectionSpec (some i) = none ↔
        (i.ema_long = 0 ∨ sepPercent i.ema_short i.ema_long = 0)) ∧
      (¬(i.ema_long = 0) → sepPercent i.ema_short i.ema_long > 0 →
        trendDirectionSpec (some i) = some SpecTrendDir.bullish) ∧
      (¬(i.ema_long = 0) → sepPercent i.ema_short i.ema_long < 0 →
        trendDirectionSpec (some i) = some SpecTrendDir.bearish) ∧
      scoreSymbolSpec t none minHealth = none ∧
      (∀ s, scoreSymbolSpec t (some i) minHealth = some s →
        trendDirectionSpec (some i) = some s.direction) := by
  intro t i minHealth
  refine ⟨rfl, ?_, ?_, ?_, rfl, ?_⟩
  · simp only [trendDirectionSpec]
    split_ifs with h1 h2 h3
    · simp [h1]
    · simp [h1, h2.ne']
    · simp [h1, h3.ne]
    · simp only [true_iff]
      exact Or.inr (le_antisymm (not_lt.mp h2) (not_lt.mp h3))
  · intro h1 h2
    simp [trendDirectionSpec, h1, h2]
  · intro h1 h3
    have h2 : ¬(sepPercent i.ema_short i.ema_long > 0) := not_lt.mpr h3.le
    simp [trendDirectionSpec, h1, h2, h3]
  · intro s h
    cases hdir : trendDirectionSpec (some i) with
    | none =>
      simp only [scoreSymbolSpec, hdir] at h
      exact absurd h (by simp)
    | some dir =>
      simp only [scoreSymbolSpec, hdir] at h
      split_ifs at h with hlt
      rw [Option.some.injEq] at h
      subst h
      simp [hdir]

/-- Witness for C9 at the spec's worked scenario: separation 10 percent is
assigned the bullish direction, which the accepted output carries. -/
theorem spec_direction_assignment_witness :
    trendDirectionSpec (some indW) = some SpecTrendDir.bullish ∧
    trendDirectionSpec (some indW) = some specW.direction :=
  ⟨(spec_direction_assignment tickerA indW 55).2.2.1
      (by norm_num [indW]) (by norm_num [sepPercent, indW]),
   (spec_direction_assignment tickerA indW 55).2.2.2.2.2 specW
      (by norm_num [scoreSymbolSpec, trendDirectionSpec, sepPercent, indW,
        healthScoreSpec, momentumConfirmed, proximityOk, round_eq,
        MAX_DISTANCE_FROM_EMA_PERCENT, stageSpec, EARLY_STAGE_MAX_PERCENT,
        specW, tickerA])⟩

/-- Claim C3: the spec orchestrator's per-side output is the partition by
direction, stably sorted by health score descending (ties keep original
snapshot order) and truncated to the configured count: the output is never
longer than the count, is descending in health score, draws only from the
requested partition, and restricted to any single health value equals the
input restriction (stability). -/
theorem spec_orchestrator_ranking :
    ∀ (results : List SpecScored) (dir : SpecTrendDir) (n : ℕ) (v : ℤ),
      (rankSideSpec dir results n).length ≤ n ∧
      (rankSideSpec SpecTrendDir.bullish results TOP_BULLISH_COUNT).length
          ≤ TOP_BULLISH_COUNT ∧
      (rankSideSpec SpecTrendDir.bearish results TOP_BEARISH_COUNT).length
          ≤ TOP_BEARISH_COUNT ∧
      (rankSideSpec dir results n).Pairwise
        (fun p q => q.health_score ≤ p.health_score) ∧
      (∀ s, s ∈ rankSideSpec dir results n → s ∈ results ∧ s.direction = dir) ∧
      ((sortDescBy (fun s => s.health_score)
          (results.filter (fun s => decide (s.direction = dir)))).filter
            (fun s => decide (s.health_score = v)) =
        (results.filter (fun s => decide (s.direction = dir))).filter
          (fun s => decide (s.health_score = v))) ∧
      screenSpec results =
        (rankSideSpec SpecTrendDir.bullish results TOP_BULLISH_COUNT,
         rankSideSpec SpecTrendDir.bearish results TOP_BEARISH_COUNT) := by
  intro results dir n v
  have hlen : ∀ (d : SpecTrendDir) (m : ℕ),
      (rankSideSpec d results m).length ≤ m := by
    intro d m
    unfold rankSideSpec
    rw [List.length_take]
    exact min_le_left _ _
  refine ⟨hlen dir n, hlen _ _, hlen _ _, ?_, ?_, ?_, rfl⟩
  · exact ((sortDescBy_pairwise (fun s : SpecScored => s.health_score)
      (results.filter (fun s => decide (s.direction = dir)))).sublist
        (List.take_sublist _ _))
  · intro s hs
    have hs2 : s ∈ sortDescBy (fun s : SpecScored => s.health_score)
        (results.filter (fun s => decide (s.direction = dir))) :=
      List.mem_of_mem_take hs
    have hs3 := (sortDescBy_mem (fun s : SpecScored => s.health_score) s
      (results.filter (fun s => decide (s.direction = dir)))).mp hs2
    rw [List.mem_filter] at hs3
    exact ⟨hs3.1, of_decide_eq_true hs3.2⟩
  · exact sortDescBy_filter_eq (fun s : SpecScored => s.health_score) v
      (results.filter (fun s => decide (s.direction = dir)))

/-- Witness for C3 at a two-element bullish list: the higher-scored result
is ranked and belongs to the bullish partition. -/
theorem spec_orchestrator_ranking_witness :
    specR2 ∈ ([specR1, specR2]) ∧ specR2.direction = SpecTrendDir.bullish :=
  (spec_orchestrator_ranking ([specR1, specR2]) SpecTrendDir.bullish 10
    40).2.2.2.2.1 specR2 (by decide)
